import Mathlib

/-!
Verification development for `refiners/foundationals/clip/text_encoder.py`.

The file shallowly embeds the CLIP text encoder: the module tree built by the
constructors (`TokenEncoder`, `PositionalEncoder`, `FeedForward`,
`TransformerLayer`, `CLIPTextEncoder` and its three presets) and an
interpreter giving the forward-pass semantics.  Scalars are rationals; the
scalar nonlinearities supplied by the external numeric runtime (GeLU,
inverse square root, the exponential used by softmax) and the tokenizer's
raw token mapping are abstracted into a `Prim` record of collaborators, as
the source file only composes them.
-/

namespace Refiners

/-- A token vector: one embedding vector of rationals. -/
abbrev Vec := List ℚ

/-- A hidden-state sequence: one vector per token position. -/
abbrev Seq := List Vec

/-- Modelled from the spec: the external collaborators of the module
(spec section 6).  The numeric tensor runtime supplies the scalar
nonlinearities (inverse square root used by LayerNorm and attention
scaling, exact and approximate GeLU, the exponential used by the softmax
normalization of attention scores); the tokenizer module (not part of this
file's source) supplies the raw token mapping and its own defaults for
sequence length and pad token id. -/
structure Prim where
  rsqrt : ℚ → ℚ
  geluExact : ℚ → ℚ
  geluApprox : ℚ → ℚ
  pexp : ℚ → ℚ
  tokensOf : String → List ℕ
  defaultSeqLen : ℕ
  defaultPadId : ℕ

/-- Modelled from the spec: the tokenizer collaborator's construction
parameters (spec section 6).  The tokenizer pads/truncates to a configured
sequence length using a configured pad-token id; `none` means the
tokenizer module's own default is used (that module is not part of this
file's source). -/
structure CLIPTokenizer where
  sequence_length : Option ℕ
  pad_token_id : Option ℕ

deriving instance DecidableEq for CLIPTokenizer

/-- Effective sequence length of a tokenizer configuration. -/
def CLIPTokenizer.effSeqLen (P : Prim) (t : CLIPTokenizer) : ℕ :=
  t.sequence_length.getD P.defaultSeqLen

/-- Effective pad token id of a tokenizer configuration. -/
def CLIPTokenizer.effPad (P : Prim) (t : CLIPTokenizer) : ℕ :=
  t.pad_token_id.getD P.defaultPadId

/-- Pad (with `pad`) or truncate `l` to exactly `n` entries. -/
def padTruncate (n pad : ℕ) (l : List ℕ) : List ℕ :=
  l.take n ++ List.replicate (n - l.length) pad

/-- Modelled from the spec: `encode(text) -> integer ID tensor`, padded or
truncated to the configured sequence length with the configured pad token
(spec section 6); the raw token mapping lives in the tokenizer module,
abstracted as `P.tokensOf`. -/
def tokenizerEncode (P : Prim) (t : CLIPTokenizer) (s : String) : List ℕ :=
  padTruncate (t.effSeqLen P) (t.effPad P) (P.tokensOf s)

/-- The construction parameters of `CLIPTextEncoder.__init__` (including
the optional externally supplied tokenizer). -/
structure Config where
  embedding_dim : ℕ
  max_sequence_length : ℕ
  vocabulary_size : ℕ
  num_layers : ℕ
  num_attention_heads : ℕ
  feedforward_dim : ℕ
  layer_norm_eps : ℚ
  use_quick_gelu : Bool
  tokenizer : Option CLIPTokenizer

deriving instance DecidableEq for Config

/-- Weight parameters of one `fl.SelfAttention` module: query, key, value
and output projections with biases. -/
structure AttnParams where
  Wq : List Vec
  bq : Vec
  Wk : List Vec
  bk : Vec
  Wv : List Vec
  bv : Vec
  Wo : List Vec
  bo : Vec

deriving instance DecidableEq for AttnParams

/-- Weight parameters of one `FeedForward` module: the two `fl.Linear`
projections. -/
structure FFParams where
  W1 : List Vec
  b1 : Vec
  W2 : List Vec
  b2 : Vec

deriving instance DecidableEq for FFParams

/-- Weight parameters of one `TransformerLayer`: the two LayerNorms, the
attention projections and the feed-forward projections. -/
structure LayerParams where
  ln1w : Vec
  ln1b : Vec
  attn : AttnParams
  ln2w : Vec
  ln2b : Vec
  ff : FFParams

deriving instance DecidableEq for LayerParams

/-- All weight parameters of a `CLIPTextEncoder`: the two embedding
tables, one `LayerParams` per layer index, and the final LayerNorm. -/
structure EncoderParams where
  tokTable : List Vec
  posTable : List Vec
  layers : ℕ → LayerParams
  lnfW : Vec
  lnfB : Vec

/-- The module tree built by the constructors of the source file.  Leaves
are the `fl` layers used there; `chainM` is sequential composition
(`fl.Chain` with its children folded pairwise), `residualM a b` is
`fl.Residual(a, b)` and `sumM a b` is `fl.Sum(a, b)`. -/
inductive Module where
  | tokenizerM (t : CLIPTokenizer)
  | converterM
  | embeddingM (table : List Vec)
  | lambdaPosIds (maxSeq : ℕ)
  | linearM (W : List Vec) (b : Vec)
  | geluM
  | approximateGeluM
  | layerNormM (eps : ℚ) (w b : Vec)
  | selfAttentionM (numHeads : ℕ) (pa : AttnParams)
  | chainM (a b : Module)
  | residualM (a b : Module)
  | sumM (a b : Module)

deriving instance DecidableEq for Module

/-- Values flowing through the module tree: a raw string, a batch of
token-id rows, or a batch of hidden-state sequences. -/
inductive Val where
  | str (s : String)
  | ids (b : List (List ℕ))
  | seq (b : List Seq)

deriving instance DecidableEq for Val

/-- Dot product of two vectors (zip-truncating). -/
def dotQ (a b : Vec) : ℚ := (List.zipWith (· * ·) a b).sum

/-- Affine map of `fl.Linear`: one output coordinate per weight row. -/
def affine (W : List Vec) (bias : Vec) (v : Vec) : Vec :=
  List.zipWith (fun row c => dotQ row v + c) W bias

/-- Elementwise sum of two vectors. -/
def addVec : Vec → Vec → Vec := List.zipWith (· + ·)

/-- Positionwise sum of two sequences. -/
def addRow : Seq → Seq → Seq := List.zipWith addVec

/-- Mean of a vector's entries. -/
def meanQ (v : Vec) : ℚ := v.sum / v.length

/-- Population variance of a vector's entries. -/
def varQ (v : Vec) : ℚ := (v.map (fun x => (x - meanQ v) ^ 2)).sum / v.length

/-- Modelled from the spec: `fl.LayerNorm` (not part of this file's
source) normalizes each position's vector using mean and variance with a
numerical-stability epsilon added to the variance before the square root
(spec section 4.4), then applies the learned elementwise scale and
shift. -/
def layerNormVec (P : Prim) (eps : ℚ) (w b : Vec) (v : Vec) : Vec :=
  let m := meanQ v
  let r := P.rsqrt (varQ v + eps)
  List.zipWith (· + ·) (List.zipWith (fun vi wi => (vi - m) * r * wi) v w) b

/-- Softmax weights of a list of scores, with the exponential supplied by
the numeric runtime. -/
def softmaxQ (P : Prim) (s : List ℚ) : List ℚ :=
  let e := s.map P.pexp
  e.map (· / e.sum)

/-- The `idx`-th of `h` contiguous head chunks of a vector. -/
def chunk (h idx : ℕ) (v : Vec) : Vec :=
  (v.drop (idx * (v.length / h))).take (v.length / h)

/-- Scale a vector by a scalar. -/
def scaleVec (c : ℚ) (v : Vec) : Vec := v.map (c * ·)

/-- Sum a list of vectors of length `dh` (starting from the zero vector of
that length). -/
def sumVecs (dh : ℕ) (l : List Vec) : Vec :=
  l.foldr addVec (List.replicate dh 0)

/-- One attention head's output at one query position: softmax-normalized
scaled dot-product scores against the (causally truncated) keys, weighting
the corresponding value chunks. -/
def headOut (P : Prim) (h idx : ℕ) (qi : Vec) (ks vs : Seq) : Vec :=
  let dh := qi.length / h
  let scores := ks.map (fun kj => dotQ (chunk h idx qi) (chunk h idx kj) * P.rsqrt (dh : ℚ))
  let w := softmaxQ P scores
  sumVecs dh (List.zipWith (fun wj vj => scaleVec wj (chunk h idx vj)) w vs)

/-- Causal multi-head attention output at position `i`: each head attends
only to key/value positions `0..i` (`take (i+1)`), and the head outputs
are concatenated. -/
def attnOut (P : Prim) (h : ℕ) (q k v : Seq) (i : ℕ) : Vec :=
  ((List.range h).map (fun idx =>
    headOut P h idx (q.getD i []) (k.take (i + 1)) (v.take (i + 1)))).flatten

/-- Modelled from the spec: `fl.SelfAttention(is_causal=True)` (not part
of this file's source): query/key/value projections of the input, causal
multi-head scaled dot-product attention (position `i` only attends to
positions `≤ i`, spec glossary), then the output projection. -/
def selfAttnRow (P : Prim) (h : ℕ) (pa : AttnParams) (x : Seq) : Seq :=
  let q := x.map (affine pa.Wq pa.bq)
  let k := x.map (affine pa.Wk pa.bk)
  let v := x.map (affine pa.Wv pa.bv)
  (List.range x.length).map (fun i => affine pa.Wo pa.bo (attnOut P h q k v i))

/-- Embedding lookup of a row of ids in a table. -/
def embedRow (table : List Vec) (l : List ℕ) : Seq :=
  l.map (fun i => table.getD i [])

/-- `PositionalEncoder.position_ids`: `arange(max_sequence_length)`. -/
def position_ids (maxSeq : ℕ) : List ℕ := List.range maxSeq

/-- `PositionalEncoder.get_position_ids`: the slice
`position_ids[:, : x.shape[1]]`, i.e. the first `L` position ids, clamped
to the available `max_sequence_length` ids as Python slicing clamps. -/
def get_position_ids (maxSeq L : ℕ) : List ℕ := (position_ids maxSeq).take L

/-- Lift a per-sequence function to batched hidden-state values; any other
value passes through unchanged. -/
def onRows (f : Seq → Seq) : Val → Val
  | .seq b => .seq (b.map f)
  | v => v

/-- Elementwise sum of two batched hidden-state values (used by
`fl.Residual` and `fl.Sum`). -/
def addVal : Val → Val → Val
  | .seq a, .seq b => .seq (List.zipWith addRow a b)
  | a, _ => a

/-- The forward-pass semantics of a module tree.  Leaf semantics are
modelled from the spec's contracts for the `fl` layers (sections 4 and 6);
the composition semantics (`chainM` sequencing, `residualM` adding its
input to its transformed branch, `sumM` adding both branches' outputs on
the same input) follow the spec's residual/sum contracts. -/
def run (P : Prim) : Module → Val → Val
  | .tokenizerM t, v =>
    match v with
    | .str s => .ids [tokenizerEncode P t s]
    | v => v
  | .converterM, v => v
  | .embeddingM table, v =>
    match v with
    | .ids b => .seq (b.map (embedRow table))
    | v => v
  | .lambdaPosIds maxSeq, v =>
    match v with
    | .ids b => .ids (b.map (fun l => get_position_ids maxSeq l.length))
    | v => v
  | .linearM W bias, v => onRows (fun x => x.map (affine W bias)) v
  | .geluM, v => onRows (List.map (List.map P.geluExact)) v
  | .approximateGeluM, v => onRows (List.map (List.map P.geluApprox)) v
  | .layerNormM eps w b, v => onRows (List.map (layerNormVec P eps w b)) v
  | .selfAttentionM h pa, v => onRows (selfAttnRow P h pa) v
  | .chainM a b, v => run P b (run P a v)
  | .residualM a b, v => addVal v (run P b (run P a v))
  | .sumM a b, v => addVal (run P a v) (run P b v)

/-- Fold a nonempty list of modules into a sequential chain (the varargs
`fl.Chain` composed pairwise); the empty chain is the identity
(`converterM` is an identity on values). -/
def chainAll : List Module → Module
  | [] => .converterM
  | [m] => m
  | m :: ms => .chainM m (chainAll ms)

/-- `FeedForward.__init__` with the activation module made explicit:
Linear(embedding_dim → feedforward_dim), activation,
Linear(feedforward_dim → embedding_dim). -/
def FeedForward.buildWith (act : Module) (fp : FFParams) : Module :=
  .chainM (.chainM (.linearM fp.W1 fp.b1) act) (.linearM fp.W2 fp.b2)

/-- `FeedForward.__init__` as written in the source: the activation is
`fl.GeLU()`. -/
def FeedForward.build (fp : FFParams) : Module :=
  FeedForward.buildWith .geluM fp

/-- `TransformerLayer.__init__` with the feed-forward activation module
made explicit: `Residual(LayerNorm, SelfAttention(is_causal=True))`
followed by `Residual(LayerNorm, FeedForward)`. -/
def TransformerLayer.buildWith (act : Module) (eps : ℚ) (h : ℕ) (lp : LayerParams) : Module :=
  .chainM
    (.residualM (.layerNormM eps lp.ln1w lp.ln1b) (.selfAttentionM h lp.attn))
    (.residualM (.layerNormM eps lp.ln2w lp.ln2b) (FeedForward.buildWith act lp.ff))

/-- `TransformerLayer.__init__` as written in the source. -/
def TransformerLayer.build (eps : ℚ) (h : ℕ) (lp : LayerParams) : Module :=
  TransformerLayer.buildWith .geluM eps h lp

/-- `PositionalEncoder.__init__`: `Chain(Lambda(get_position_ids),
Embedding(max_sequence_length, embedding_dim))`. -/
def PositionalEncoder.build (maxSeq : ℕ) (table : List Vec) : Module :=
  .chainM (.lambdaPosIds maxSeq) (.embeddingM table)

/-- The tokenizer the encoder ends up with: the externally supplied one,
or else `CLIPTokenizer(sequence_length=max_sequence_length)` as in
`tokenizer or CLIPTokenizer(sequence_length=max_sequence_length)`. -/
def encoderTokenizer (cfg : Config) : CLIPTokenizer :=
  cfg.tokenizer.getD { sequence_length := some cfg.max_sequence_length, pad_token_id := none }

/-- The post-tokenizer part of `CLIPTextEncoder.__init__`, with the
feed-forward activation module made explicit: `Converter`,
`Sum(TokenEncoder, PositionalEncoder)`, `num_layers` transformer layers,
final `LayerNorm`. -/
def CLIPTextEncoder.coreWith (act : Module) (cfg : Config) (p : EncoderParams) : Module :=
  chainAll
    ([Module.converterM,
      Module.sumM (.embeddingM p.tokTable) (PositionalEncoder.build cfg.max_sequence_length p.posTable)]
      ++ (List.range cfg.num_layers).map
          (fun i => TransformerLayer.buildWith act cfg.layer_norm_eps cfg.num_attention_heads (p.layers i))
      ++ [Module.layerNormM cfg.layer_norm_eps p.lnfW p.lnfB])

/-- `CLIPTextEncoder.__init__` before the quick-GeLU rewrite pass: the
tokenizer followed by the core, all activations exact `fl.GeLU`. -/
def CLIPTextEncoder.buildBase (cfg : Config) (p : EncoderParams) : Module :=
  .chainM (.tokenizerM (encoderTokenizer cfg)) (CLIPTextEncoder.coreWith .geluM cfg p)

/-- The post-construction rewrite pass of `CLIPTextEncoder.__init__`:
`self.walk(predicate=isinstance GeLU)` replacing each found `fl.GeLU` by
`fl.ApproximateGeLU()` in its parent, i.e. the structural map sending
every `geluM` leaf to `approximateGeluM` and leaving every other module
unchanged. -/
def replaceGelu : Module → Module
  | .geluM => .approximateGeluM
  | .chainM a b => .chainM (replaceGelu a) (replaceGelu b)
  | .residualM a b => .residualM (replaceGelu a) (replaceGelu b)
  | .sumM a b => .sumM (replaceGelu a) (replaceGelu b)
  | m => m

/-- `CLIPTextEncoder.__init__` in full: build the chain, then apply the
quick-GeLU rewrite pass when `use_quick_gelu` is set. -/
def CLIPTextEncoder.make (cfg : Config) (p : EncoderParams) : Module :=
  if cfg.use_quick_gelu then replaceGelu (CLIPTextEncoder.buildBase cfg p)
  else CLIPTextEncoder.buildBase cfg p

/-- `CLIPTextEncoder.unconditional_text_embedding`: `self("")`. -/
def CLIPTextEncoder.unconditional_text_embedding (P : Prim) (cfg : Config) (p : EncoderParams) : Val :=
  run P (CLIPTextEncoder.make cfg p) (.str "")

/-- The default arguments of `CLIPTextEncoder.__init__`. -/
def CLIPTextEncoder.defaultConfig : Config :=
  { embedding_dim := 768
    max_sequence_length := 77
    vocabulary_size := 49408
    num_layers := 12
    num_attention_heads := 12
    feedforward_dim := 3072
    layer_norm_eps := 1 / 100000
    use_quick_gelu := false
    tokenizer := none }

/-- `CLIPTextEncoderL.__init__`: the 768-dim preset, quick GeLU, no
tokenizer argument. -/
def CLIPTextEncoderL.config : Config :=
  { CLIPTextEncoder.defaultConfig with
    embedding_dim := 768
    num_layers := 12
    num_attention_heads := 12
    feedforward_dim := 3072
    use_quick_gelu := true }

/-- `CLIPTextEncoderH.__init__`: the 1024-dim preset, no tokenizer
argument. -/
def CLIPTextEncoderH.config : Config :=
  { CLIPTextEncoder.defaultConfig with
    embedding_dim := 1024
    num_layers := 23
    num_attention_heads := 16
    feedforward_dim := 4096 }

/-- `CLIPTextEncoderG.__init__`: the 1280-dim preset, passing
`CLIPTokenizer(pad_token_id=0)` as the tokenizer. -/
def CLIPTextEncoderG.config : Config :=
  { CLIPTextEncoder.defaultConfig with
    embedding_dim := 1280
    num_layers := 32
    num_attention_heads := 20
    feedforward_dim := 5120
    tokenizer := some { sequence_length := none, pad_token_id := some 0 } }

/-- The three named presets of the source file, in order. -/
def presetConfigs : List Config :=
  [CLIPTextEncoderL.config, CLIPTextEncoderH.config, CLIPTextEncoderG.config]

/-- Whether a configuration supplies a tokenizer with an explicitly
configured (hence non-default) pad-token id. -/
def Config.configuresNonDefaultPad (c : Config) : Bool :=
  match c.tokenizer with
  | some t => t.pad_token_id.isSome
  | none => false

/-- The feed-forward map on one position's vector, with activation `g`:
project up, apply the activation, project down. -/
def ffVec (g : ℚ → ℚ) (fp : FFParams) (v : Vec) : Vec :=
  affine fp.W2 fp.b2 ((affine fp.W1 fp.b1 v).map g)

/-- One transformer layer on one sequence, written as the two pre-norm
residual sub-blocks: `x + SelfAttention(LayerNorm(x))`, then
`y + FeedForward(LayerNorm(y))`. -/
def layerRow (P : Prim) (g : ℚ → ℚ) (eps : ℚ) (h : ℕ) (lp : LayerParams) (x : Seq) : Seq :=
  let a := addRow x (selfAttnRow P h lp.attn (x.map (layerNormVec P eps lp.ln1w lp.ln1b)))
  addRow a ((a.map (layerNormVec P eps lp.ln2w lp.ln2b)).map (ffVec g lp.ff))

/-- The whole post-tokenizer forward pass on one row of token ids:
token embeddings plus positional embeddings, the stack of layers, the
final LayerNorm. -/
def coreRow (P : Prim) (g : ℚ → ℚ) (cfg : Config) (p : EncoderParams) (l : List ℕ) : Seq :=
  let x0 := addRow (embedRow p.tokTable l)
    (embedRow p.posTable (get_position_ids cfg.max_sequence_length l.length))
  let xN := ((List.range cfg.num_layers).map p.layers).foldl
    (fun x lp => layerRow P g cfg.layer_norm_eps cfg.num_attention_heads lp x) x0
  xN.map (layerNormVec P cfg.layer_norm_eps p.lnfW p.lnfB)

/-- The activation function selected by `use_quick_gelu`. -/
def actOf (P : Prim) (b : Bool) : ℚ → ℚ :=
  if b then P.geluApprox else P.geluExact

/-- The activation module present after construction, by `use_quick_gelu`. -/
def actModOf (b : Bool) : Module :=
  if b then .approximateGeluM else .geluM

/-- A module behaves as the pointwise scalar map `g` on hidden states. -/
def ActLike (P : Prim) (act : Module) (g : ℚ → ℚ) : Prop :=
  ∀ v, run P act v = onRows (List.map (List.map g)) v

/-- A concrete collaborator instance used to evaluate the development on
explicit inputs. -/
def exP : Prim :=
  { rsqrt := fun _ => 1
    geluExact := fun x => x + 1
    geluApprox := fun x => 2 * x
    pexp := fun _ => 1
    tokensOf := fun _ => []
    defaultSeqLen := 2
    defaultPadId := 0 }

/-- Concrete attention parameters (dimension 1, one head). -/
def exAttn : AttnParams :=
  { Wq := [[1]], bq := [0], Wk := [[1]], bk := [0]
    Wv := [[1]], bv := [0], Wo := [[1]], bo := [0] }

/-- Concrete feed-forward parameters (dimensions 1 → 1 → 1). -/
def exFF : FFParams := { W1 := [[1]], b1 := [0], W2 := [[1]], b2 := [0] }

/-- Concrete parameters of one transformer layer. -/
def exLayer : LayerParams :=
  { ln1w := [1], ln1b := [0], attn := exAttn, ln2w := [1], ln2b := [0], ff := exFF }

/-- A concrete small configuration: dimension 1, one head, one layer,
maximum sequence length 2, vocabulary 3. -/
def exCfg : Config :=
  { embedding_dim := 1
    max_sequence_length := 2
    vocabulary_size := 3
    num_layers := 1
    num_attention_heads := 1
    feedforward_dim := 1
    layer_norm_eps := 1 / 100000
    use_quick_gelu := false
    tokenizer := none }

/-- The same configuration with dimension 3 and 2 heads: the
head-splitting invariant fails. -/
def exCfgBad : Config :=
  { exCfg with embedding_dim := 3, num_attention_heads := 2 }

/-- Concrete well-formed encoder parameters for `exCfg`. -/
def exParams : EncoderParams :=
  { tokTable := [[0], [1], [2]]
    posTable := [[0], [1]]
    layers := fun _ => exLayer
    lnfW := [1]
    lnfB := [0] }

/-- Two lists agree in length and on their first `n` entries. -/
abbrev AgreeTo (n : ℕ) {α : Type} (x y : List α) : Prop :=
  x.length = y.length ∧ x.take n = y.take n

/-- Number of exact-GeLU activation instances in a module tree. -/
def countGelu : Module → ℕ
  | .geluM => 1
  | .chainM a b => countGelu a + countGelu b
  | .residualM a b => countGelu a + countGelu b
  | .sumM a b => countGelu a + countGelu b
  | _ => 0

/-- Number of approximate-GeLU activation instances in a module tree. -/
def countApproxGelu : Module → ℕ
  | .approximateGeluM => 1
  | .chainM a b => countApproxGelu a + countApproxGelu b
  | .residualM a b => countApproxGelu a + countApproxGelu b
  | .sumM a b => countApproxGelu a + countApproxGelu b
  | _ => 0

/-- Erase the distinction between the two activation variants (marking
both as the exact one); two trees equal under `eraseAct` have identical
wiring and identical non-activation modules and parameters. -/
def eraseAct : Module → Module
  | .approximateGeluM => .geluM
  | .chainM a b => .chainM (eraseAct a) (eraseAct b)
  | .residualM a b => .residualM (eraseAct a) (eraseAct b)
  | .sumM a b => .sumM (eraseAct a) (eraseAct b)
  | m => m

/-- Whether a leaf module is one of the two activation variants. -/
def isActivation : Module → Bool
  | .geluM => true
  | .approximateGeluM => true
  | _ => false

/-- The leaf modules of a tree, in left-to-right wiring order. -/
def leaves : Module → List Module
  | .chainM a b => leaves a ++ leaves b
  | .residualM a b => leaves a ++ leaves b
  | .sumM a b => leaves a ++ leaves b
  | m => [m]

/-- The non-activation leaf modules of a tree, in wiring order. -/
def nonActLeaves (m : Module) : List Module :=
  (leaves m).filter (fun x => ! isActivation x)

/-- A sequence has `L` positions, each a vector of dimension `d`. -/
abbrev RowShape (L d : ℕ) (x : Seq) : Prop :=
  x.length = L ∧ ∀ v ∈ x, v.length = d

/-- A batch has `B` rows, each of shape `(L, d)` — the tensor shape
`(B, L, d)`. -/
abbrev BatchShape (B L d : ℕ) (bb : List Seq) : Prop :=
  bb.length = B ∧ ∀ r ∈ bb, RowShape L d r

/-- A weight matrix with `rows` output rows of `cols` entries each. -/
abbrev MatWF (rows cols : ℕ) (W : List Vec) : Prop :=
  W.length = rows ∧ ∀ r ∈ W, r.length = cols

/-- Well-formed attention parameters for embedding dimension `d`. -/
abbrev AttnParams.WF (d : ℕ) (a : AttnParams) : Prop :=
  MatWF d d a.Wq ∧ a.bq.length = d ∧ MatWF d d a.Wk ∧ a.bk.length = d ∧
  MatWF d d a.Wv ∧ a.bv.length = d ∧ MatWF d d a.Wo ∧ a.bo.length = d

/-- Well-formed feed-forward parameters: `d → f` then `f → d`. -/
abbrev FFParams.WF (d f : ℕ) (fp : FFParams) : Prop :=
  MatWF f d fp.W1 ∧ fp.b1.length = f ∧ MatWF d f fp.W2 ∧ fp.b2.length = d

/-- Well-formed parameters of one transformer layer. -/
abbrev LayerParams.WF (d f : ℕ) (lp : LayerParams) : Prop :=
  lp.ln1w.length = d ∧ lp.ln1b.length = d ∧ AttnParams.WF d lp.attn ∧
  lp.ln2w.length = d ∧ lp.ln2b.length = d ∧ FFParams.WF d f lp.ff

/-- Well-formed parameters of the whole encoder for a configuration. -/
abbrev EncoderParams.WF (cfg : Config) (p : EncoderParams) : Prop :=
  p.tokTable.length = cfg.vocabulary_size ∧
  (∀ r ∈ p.tokTable, r.length = cfg.embedding_dim) ∧
  p.posTable.length = cfg.max_sequence_length ∧
  (∀ r ∈ p.posTable, r.length = cfg.embedding_dim) ∧
  p.lnfW.length = cfg.embedding_dim ∧ p.lnfB.length = cfg.embedding_dim ∧
  ∀ i < cfg.num_layers, LayerParams.WF cfg.embedding_dim cfg.feedforward_dim (p.layers i)

/-- Modelled from the spec: the `fl.SelfAttention` constructor (not part
of this file's source) validates the attention head-splitting invariant
— `embedding_dim` divisible by `num_heads` — at construction time and
rejects the configuration immediately otherwise (spec section 7(c)). -/
def SelfAttention.construct (embedding_dim num_heads : ℕ) (pa : AttnParams) : Option Module :=
  if embedding_dim % num_heads = 0 then some (.selfAttentionM num_heads pa) else none

/-- `TransformerLayer.__init__` with fallible `fl.SelfAttention`
construction: fails exactly when the attention sublayer's construction
does. -/
def TransformerLayer.construct (eps : ℚ) (d h : ℕ) (lp : LayerParams) : Option Module :=
  (SelfAttention.construct d h lp.attn).map (fun sa =>
    .chainM
      (.residualM (.layerNormM eps lp.ln1w lp.ln1b) sa)
      (.residualM (.layerNormM eps lp.ln2w lp.ln2b) (FeedForward.build lp.ff)))

/-- `CLIPTextEncoder.__init__` with fallible sublayer construction: each
of the `num_layers` transformer layers is constructed in order, then the
chain is assembled and the quick-GeLU rewrite applied; construction fails
if any layer's construction fails. -/
def CLIPTextEncoder.construct (cfg : Config) (p : EncoderParams) : Option Module := do
  let layers ← (List.range cfg.num_layers).mapM
    (fun i => TransformerLayer.construct cfg.layer_norm_eps cfg.embedding_dim
      cfg.num_attention_heads (p.layers i))
  let base := Module.chainM (.tokenizerM (encoderTokenizer cfg))
    (chainAll
      ([Module.converterM,
        Module.sumM (.embeddingM p.tokTable)
          (PositionalEncoder.build cfg.max_sequence_length p.posTable)]
        ++ layers ++ [Module.layerNormM cfg.layer_norm_eps p.lnfW p.lnfB]))
  some (if cfg.use_quick_gelu then replaceGelu base else base)

lemma actLike_gelu (P : Prim) : ActLike P .geluM P.geluExact := fun _ => rfl

lemma actLike_approx (P : Prim) : ActLike P .approximateGeluM P.geluApprox := fun _ => rfl

lemma actLike_actModOf (P : Prim) (b : Bool) : ActLike P (actModOf b) (actOf P b) := by
  cases b <;> intro v <;> rfl

@[simp] lemma run_chainM (P : Prim) (a b : Module) (v : Val) :
    run P (.chainM a b) v = run P b (run P a v) := rfl

@[simp] lemma run_residualM (P : Prim) (a b : Module) (v : Val) :
    run P (.residualM a b) v = addVal v (run P b (run P a v)) := rfl

@[simp] lemma run_sumM (P : Prim) (a b : Module) (v : Val) :
    run P (.sumM a b) v = addVal (run P a v) (run P b v) := rfl

@[simp] lemma run_converterM (P : Prim) (v : Val) : run P .converterM v = v := rfl

@[simp] lemma run_linearM_seq (P : Prim) (W : List Vec) (c : Vec) (b : List Seq) :
    run P (.linearM W c) (.seq b) = .seq (b.map (fun x => x.map (affine W c))) := rfl

@[simp] lemma run_geluM_seq (P : Prim) (b : List Seq) :
    run P .geluM (.seq b) = .seq (b.map (List.map (List.map P.geluExact))) := rfl

@[simp] lemma run_approximateGeluM_seq (P : Prim) (b : List Seq) :
    run P .approximateGeluM (.seq b) = .seq (b.map (List.map (List.map P.geluApprox))) := rfl

@[simp] lemma run_layerNormM_seq (P : Prim) (eps : ℚ) (w c : Vec) (b : List Seq) :
    run P (.layerNormM eps w c) (.seq b) = .seq (b.map (List.map (layerNormVec P eps w c))) := rfl

@[simp] lemma run_selfAttentionM_seq (P : Prim) (h : ℕ) (pa : AttnParams) (b : List Seq) :
    run P (.selfAttentionM h pa) (.seq b) = .seq (b.map (selfAttnRow P h pa)) := rfl

@[simp] lemma run_embeddingM_ids (P : Prim) (t : List Vec) (b : List (List ℕ)) :
    run P (.embeddingM t) (.ids b) = .seq (b.map (embedRow t)) := rfl

@[simp] lemma run_lambdaPosIds_ids (P : Prim) (maxSeq : ℕ) (b : List (List ℕ)) :
    run P (.lambdaPosIds maxSeq) (.ids b)
      = .ids (b.map (fun l => get_position_ids maxSeq l.length)) := rfl

@[simp] lemma run_tokenizerM_str (P : Prim) (t : CLIPTokenizer) (s : String) :
    run P (.tokenizerM t) (.str s) = .ids [tokenizerEncode P t s] := rfl

@[simp] lemma addVal_seq (a b : List Seq) :
    addVal (.seq a) (.seq b) = .seq (List.zipWith addRow a b) := rfl

@[simp] lemma onRows_seq (f : Seq → Seq) (b : List Seq) :
    onRows f (.seq b) = .seq (b.map f) := rfl

lemma run_chainAll_cons (P : Prim) (m : Module) (ms : List Module) (v : Val) :
    run P (chainAll (m :: ms)) v = run P (chainAll ms) (run P m v) := by
  cases ms with
  | nil => simp [chainAll, run]
  | cons a l => simp [chainAll, run]

lemma zipWith_addRow_self_map (b : List Seq) (f : Seq → Seq) :
    List.zipWith addRow b (b.map f) = b.map (fun r => addRow r (f r)) := by
  rw [List.zipWith_map_right]
  exact List.zipWith_same _ b

lemma zipWith_addRow_map_map (b : List Seq) (f g : Seq → Seq) :
    List.zipWith addRow (b.map f) (b.map g) = b.map (fun r => addRow (f r) (g r)) := by
  induction b with
  | nil => rfl
  | cons r rest ih => simp only [List.map_cons, List.zipWith_cons_cons, ih]

/-- Running one transformer layer on a batch applies `layerRow` to each
row. -/
lemma run_transformerLayer (P : Prim) {act : Module} {g : ℚ → ℚ} (hact : ActLike P act g)
    (eps : ℚ) (h : ℕ) (lp : LayerParams) (b : List Seq) :
    run P (TransformerLayer.buildWith act eps h lp) (.seq b)
      = .seq (b.map (layerRow P g eps h lp)) := by
  have hact2 : ∀ v, run P act v = onRows (List.map (List.map g)) v := hact
  simp only [TransformerLayer.buildWith, FeedForward.buildWith, run_chainM, run_residualM,
    run_layerNormM_seq, run_selfAttentionM_seq, run_linearM_seq, hact2, onRows_seq,
    addVal_seq, List.map_map, zipWith_addRow_self_map, zipWith_addRow_map_map]
  refine congrArg Val.seq (List.map_congr_left fun r _ => ?_)
  simp only [Function.comp_def, layerRow, ffVec, List.map_map]

lemma foldl_map_singleton {α β : Type} (F : β → α → α) (x : α) (lps : List β) :
    lps.foldl (fun c lp => c.map (F lp)) [x] = [lps.foldl (fun x lp => F lp x) x] := by
  induction lps generalizing x with
  | nil => rfl
  | cons lp rest ih => simpa using ih (F lp x)

/-- Running the post-tokenizer core on a single row of token ids computes
`coreRow`. -/
lemma run_coreWith (P : Prim) {act : Module} {g : ℚ → ℚ} (hact : ActLike P act g)
    (cfg : Config) (p : EncoderParams) (l : List ℕ) :
    run P (CLIPTextEncoder.coreWith act cfg p) (.ids [l]) = .seq [coreRow P g cfg p l] := by
  have hlayers : ∀ (idxs : List ℕ) (x : Seq),
      run P (chainAll ((idxs.map
          (fun i => TransformerLayer.buildWith act cfg.layer_norm_eps cfg.num_attention_heads
            (p.layers i)))
        ++ [Module.layerNormM cfg.layer_norm_eps p.lnfW p.lnfB])) (.seq [x])
      = .seq [((idxs.map p.layers).foldl
          (fun x lp => layerRow P g cfg.layer_norm_eps cfg.num_attention_heads lp x) x).map
            (layerNormVec P cfg.layer_norm_eps p.lnfW p.lnfB)] := by
    intro idxs
    induction idxs with
    | nil => intro x; simp [chainAll]
    | cons i rest ih =>
      intro x
      rw [List.map_cons, List.cons_append, run_chainAll_cons,
        run_transformerLayer P hact, List.map_singleton, ih]
      rfl
  have hfront : run P (CLIPTextEncoder.coreWith act cfg p) (.ids [l])
      = run P (chainAll ((List.range cfg.num_layers).map
          (fun i => TransformerLayer.buildWith act cfg.layer_norm_eps cfg.num_attention_heads
            (p.layers i))
        ++ [Module.layerNormM cfg.layer_norm_eps p.lnfW p.lnfB]))
        (.seq [addRow (embedRow p.tokTable l)
          (embedRow p.posTable (get_position_ids cfg.max_sequence_length l.length))]) := by
    rw [CLIPTextEncoder.coreWith]
    simp only [List.cons_append, List.nil_append]
    rw [run_chainAll_cons, run_chainAll_cons]
    rfl
  rw [hfront, hlayers]
  rfl

/-- `replaceGelu` distributes over folded chains. -/
lemma replaceGelu_chainAll (L : List Module) :
    replaceGelu (chainAll L) = chainAll (L.map replaceGelu) := by
  induction L with
  | nil => rfl
  | cons m ms ih =>
    cases ms with
    | nil => rfl
    | cons a l => simp only [chainAll, List.map_cons, replaceGelu] at ih ⊢; rw [ih]

/-- The rewrite pass sends the exact-GeLU core to the approximate-GeLU
core and changes nothing else of its structure. -/
lemma replaceGelu_coreWith (cfg : Config) (p : EncoderParams) :
    replaceGelu (CLIPTextEncoder.coreWith .geluM cfg p)
      = CLIPTextEncoder.coreWith .approximateGeluM cfg p := by
  rw [CLIPTextEncoder.coreWith, CLIPTextEncoder.coreWith, replaceGelu_chainAll]
  refine congrArg chainAll ?_
  simp only [List.map_cons, List.map_append, List.map_map, List.map_nil, List.cons_append,
    List.nil_append]
  refine congrArg₂ List.cons rfl (congrArg₂ List.cons rfl (congrArg₂ (· ++ ·) ?_ rfl))
  refine List.map_congr_left fun i _ => ?_
  simp [Function.comp, TransformerLayer.buildWith, FeedForward.buildWith, replaceGelu]

/-- The constructed encoder is the tokenizer chained with the core whose
activation matches `use_quick_gelu`. -/
lemma make_eq_chain (cfg : Config) (p : EncoderParams) :
    CLIPTextEncoder.make cfg p
      = .chainM (.tokenizerM (encoderTokenizer cfg))
          (CLIPTextEncoder.coreWith (actModOf cfg.use_quick_gelu) cfg p) := by
  cases hq : cfg.use_quick_gelu with
  | false =>
    simp [CLIPTextEncoder.make, CLIPTextEncoder.buildBase, actModOf, hq]
  | true =>
    simp only [CLIPTextEncoder.make, CLIPTextEncoder.buildBase, actModOf, hq, if_true]
    show Module.chainM (replaceGelu (.tokenizerM (encoderTokenizer cfg)))
      (replaceGelu (CLIPTextEncoder.coreWith .geluM cfg p)) = _
    rw [replaceGelu_coreWith]
    rfl

/-- Running the full encoder on a string: tokenize, then the core. -/
lemma run_make_str (P : Prim) (cfg : Config) (p : EncoderParams) (s : String) :
    run P (CLIPTextEncoder.make cfg p) (.str s)
      = .seq [coreRow P (actOf P cfg.use_quick_gelu) cfg p
          (tokenizerEncode P (encoderTokenizer cfg) s)] := by
  rw [make_eq_chain]
  show run P (CLIPTextEncoder.coreWith (actModOf cfg.use_quick_gelu) cfg p)
    (.ids [tokenizerEncode P (encoderTokenizer cfg) s]) = _
  exact run_coreWith P (actLike_actModOf P cfg.use_quick_gelu) cfg p _

lemma mem_zipWith {α β γ : Type} {f : α → β → γ} {c : γ} :
    ∀ {x : List α} {y : List β}, c ∈ List.zipWith f x y → ∃ a ∈ x, ∃ b ∈ y, c = f a b := by
  intro x
  induction x with
  | nil => intro y hc; simp at hc
  | cons a as ih =>
    intro y hc
    cases y with
    | nil => simp at hc
    | cons b bs =>
      rcases List.mem_cons.1 hc with hc | hc
      · exact ⟨a, List.mem_cons_self _ _, b, List.mem_cons_self _ _, hc⟩
      · obtain ⟨a2, ha2, b2, hb2, rfl⟩ := ih hc
        exact ⟨a2, List.mem_cons_of_mem _ ha2, b2, List.mem_cons_of_mem _ hb2, rfl⟩

lemma addVec_length_of (dq : ℕ) {v w : Vec} (hv : v.length = dq) (hw : w.length = dq) :
    (addVec v w).length = dq := by
  simp [addVec, hv, hw]

lemma affine_length_of {dq : ℕ} {W : List Vec} {bias : Vec}
    (hW : W.length = dq) (hb : bias.length = dq) (v : Vec) :
    (affine W bias v).length = dq := by
  simp [affine, hW, hb]

lemma layerNormVec_length_of {dq : ℕ} (P : Prim) (eps : ℚ) {w b v : Vec}
    (hw : w.length = dq) (hb : b.length = dq) (hv : v.length = dq) :
    (layerNormVec P eps w b v).length = dq := by
  simp [layerNormVec, hw, hb, hv]

lemma ffVec_length_of {dq f : ℕ} (g : ℚ → ℚ) {fp : FFParams}
    (hfp : FFParams.WF dq f fp) (v : Vec) : (ffVec g fp v).length = dq := by
  obtain ⟨_, _, hW2, hb2⟩ := hfp
  exact affine_length_of hW2.1 hb2 _

lemma rowShape_map {L dq de : ℕ} {f : Vec → Vec}
    (hf : ∀ v, v.length = dq → (f v).length = de) {x : Seq} (hx : RowShape L dq x) :
    RowShape L de (x.map f) := by
  refine ⟨by simp [hx.1], ?_⟩
  intro v hv
  obtain ⟨w, hw, rfl⟩ := List.mem_map.1 hv
  exact hf w (hx.2 w hw)

lemma addRow_shape {L dq : ℕ} {x y : Seq} (hx : RowShape L dq x) (hy : RowShape L dq y) :
    RowShape L dq (addRow x y) := by
  refine ⟨by simp [addRow, hx.1, hy.1], ?_⟩
  intro v hv
  obtain ⟨a, ha, b, hb, rfl⟩ := mem_zipWith hv
  exact addVec_length_of dq (hx.2 a ha) (hy.2 b hb)

lemma selfAttnRow_shape {dq L : ℕ} (P : Prim) (h : ℕ) {pa : AttnParams}
    (hpa : AttnParams.WF dq pa) {x : Seq} (hx : RowShape L dq x) :
    RowShape L dq (selfAttnRow P h pa x) := by
  obtain ⟨_, _, _, _, _, _, hWo, hbo⟩ := hpa
  refine ⟨by simp [selfAttnRow, hx.1], ?_⟩
  intro v hv
  simp only [selfAttnRow, List.mem_map, List.mem_range] at hv
  obtain ⟨i, _, rfl⟩ := hv
  exact affine_length_of hWo.1 hbo _

lemma layerNorm_rowShape {dq L : ℕ} (P : Prim) (eps : ℚ) {w b : Vec}
    (hw : w.length = dq) (hb : b.length = dq) {x : Seq} (hx : RowShape L dq x) :
    RowShape L dq (x.map (layerNormVec P eps w b)) :=
  rowShape_map (fun v hv => layerNormVec_length_of P eps hw hb hv) hx

lemma layerRow_shape {dq f L : ℕ} (P : Prim) (g : ℚ → ℚ) (eps : ℚ) (h : ℕ)
    {lp : LayerParams} (hlp : LayerParams.WF dq f lp) {x : Seq} (hx : RowShape L dq x) :
    RowShape L dq (layerRow P g eps h lp x) := by
  obtain ⟨h1w, h1b, hattn, h2w, h2b, hff⟩ := hlp
  have ha : RowShape L dq
      (addRow x (selfAttnRow P h lp.attn (x.map (layerNormVec P eps lp.ln1w lp.ln1b)))) :=
    addRow_shape hx (selfAttnRow_shape P h hattn (layerNorm_rowShape P eps h1w h1b hx))
  exact addRow_shape ha
    (rowShape_map (fun v hv => ffVec_length_of g hff v)
      (layerNorm_rowShape P eps h2w h2b ha))

lemma foldl_layerRow_shape {dq f L : ℕ} (P : Prim) (g : ℚ → ℚ) (eps : ℚ) (h : ℕ)
    (lps : List LayerParams) (hlps : ∀ lp ∈ lps, LayerParams.WF dq f lp) :
    ∀ {x : Seq}, RowShape L dq x →
      RowShape L dq (lps.foldl (fun x lp => layerRow P g eps h lp x) x) := by
  induction lps with
  | nil => intro x hx; exact hx
  | cons lp rest ih =>
    intro x hx
    exact ih (fun q hq => hlps q (List.mem_cons_of_mem _ hq))
      (layerRow_shape P g eps h (hlps lp (List.mem_cons_self _ _)) hx)

lemma embedRow_shape {dq : ℕ} {table : List Vec} (htab : ∀ r ∈ table, r.length = dq)
    {l : List ℕ} (hids : ∀ id ∈ l, id < table.length) :
    RowShape l.length dq (embedRow table l) := by
  refine ⟨by simp [embedRow], ?_⟩
  intro v hv
  obtain ⟨i, hi, rfl⟩ := List.mem_map.1 hv
  have hlt := hids i hi
  rw [List.getD_eq_getElem?_getD, List.getElem?_eq_getElem hlt]
  exact htab _ (List.getElem_mem hlt)

lemma coreRow_shape (P : Prim) (g : ℚ → ℚ) (cfg : Config) (p : EncoderParams)
    (hwf : EncoderParams.WF cfg p) {l : List ℕ}
    (hlen : l.length = cfg.max_sequence_length)
    (hids : ∀ id ∈ l, id < cfg.vocabulary_size) :
    RowShape cfg.max_sequence_length cfg.embedding_dim (coreRow P g cfg p l) := by
  obtain ⟨htokN, htokD, hposN, hposD, hlnw, hlnb, hlayers⟩ := hwf
  have hgpi : get_position_ids cfg.max_sequence_length l.length
      = List.range cfg.max_sequence_length := by
    rw [hlen, get_position_ids, position_ids, List.take_range, Nat.min_self]
  have htok : RowShape cfg.max_sequence_length cfg.embedding_dim (embedRow p.tokTable l) := by
    have := embedRow_shape htokD (l := l) (by rw [htokN]; exact hids)
    rwa [hlen] at this
  have hpos : RowShape cfg.max_sequence_length cfg.embedding_dim
      (embedRow p.posTable (get_position_ids cfg.max_sequence_length l.length)) := by
    rw [hgpi]
    have := embedRow_shape hposD (l := List.range cfg.max_sequence_length)
      (by intro id hid; rw [hposN]; exact List.mem_range.1 hid)
    rwa [List.length_range] at this
  have hx0 := addRow_shape htok hpos
  have hxN := foldl_layerRow_shape P g cfg.layer_norm_eps cfg.num_attention_heads
    ((List.range cfg.num_layers).map p.layers)
    (by
      intro lp hlp
      obtain ⟨i, hi, rfl⟩ := List.mem_map.1 hlp
      exact hlayers i (List.mem_range.1 hi)) hx0
  exact layerNorm_rowShape P cfg.layer_norm_eps hlnw hlnb hxN

lemma padTruncate_length (n pad : ℕ) (l : List ℕ) : (padTruncate n pad l).length = n := by
  simp [padTruncate]
  omega

lemma tokenizerEncode_length (P : Prim) (t : CLIPTokenizer) (s : String) :
    (tokenizerEncode P t s).length = t.effSeqLen P :=
  padTruncate_length _ _ _

lemma agreeTo_map {α β : Type} {n : ℕ} (f : α → β) {x y : List α} (h : AgreeTo n x y) :
    AgreeTo n (x.map f) (y.map f) :=
  ⟨by simp [h.1], by rw [← List.map_take, h.2, List.map_take]⟩

lemma agreeTo_zipWith {α β γ : Type} {n : ℕ} (f : α → β → γ)
    {x1 y1 : List α} {x2 y2 : List β}
    (h1 : AgreeTo n x1 y1) (h2 : AgreeTo n x2 y2) :
    AgreeTo n (List.zipWith f x1 x2) (List.zipWith f y1 y2) :=
  ⟨by simp [h1.1, h2.1], by rw [List.take_zipWith, h1.2, h2.2, ← List.take_zipWith]⟩

lemma take_eq_of_take_eq {α : Type} {n m : ℕ} {x y : List α}
    (hmn : m ≤ n) (h : x.take n = y.take n) : x.take m = y.take m := by
  have hx : x.take m = (x.take n).take m := by rw [List.take_take, Nat.min_eq_left hmn]
  have hy : y.take m = (y.take n).take m := by rw [List.take_take, Nat.min_eq_left hmn]
  rw [hx, hy, h]

lemma getD_eq_of_take_eq {α : Type} {n i : ℕ} {x y : List α}
    (hin : i < n) (h : x.take n = y.take n) (dflt : α) : x.getD i dflt = y.getD i dflt := by
  rw [List.getD_eq_getElem?_getD, List.getD_eq_getElem?_getD]
  have hx : x[i]? = (x.take n)[i]? := by rw [List.getElem?_take, if_pos hin]
  have hy : y[i]? = (y.take n)[i]? := by rw [List.getElem?_take, if_pos hin]
  rw [hx, hy, h]

/-- Causality of the attention sublayer: positions below `n` of its
output depend only on positions below `n` of its input. -/
lemma agreeTo_selfAttnRow {n : ℕ} (P : Prim) (h : ℕ) (pa : AttnParams) {x y : Seq}
    (hxy : AgreeTo n x y) : AgreeTo n (selfAttnRow P h pa x) (selfAttnRow P h pa y) := by
  obtain ⟨hlen, htake⟩ := hxy
  have hq := agreeTo_map (affine pa.Wq pa.bq) (⟨hlen, htake⟩ : AgreeTo n x y)
  have hk := agreeTo_map (affine pa.Wk pa.bk) (⟨hlen, htake⟩ : AgreeTo n x y)
  have hv := agreeTo_map (affine pa.Wv pa.bv) (⟨hlen, htake⟩ : AgreeTo n x y)
  refine ⟨by simp [selfAttnRow, hlen], ?_⟩
  simp only [selfAttnRow]
  rw [← List.map_take, ← List.map_take, List.take_range, List.take_range, hlen]
  refine List.map_congr_left fun i hi => ?_
  have hin : i < n := by
    have := List.mem_range.1 hi
    omega
  have hsucc : i + 1 ≤ n := hin
  have hqi : (x.map (affine pa.Wq pa.bq)).getD i []
      = (y.map (affine pa.Wq pa.bq)).getD i [] := getD_eq_of_take_eq hin hq.2 []
  have hki : (x.map (affine pa.Wk pa.bk)).take (i + 1)
      = (y.map (affine pa.Wk pa.bk)).take (i + 1) := take_eq_of_take_eq hsucc hk.2
  have hvi : (x.map (affine pa.Wv pa.bv)).take (i + 1)
      = (y.map (affine pa.Wv pa.bv)).take (i + 1) := take_eq_of_take_eq hsucc hv.2
  rw [attnOut, attnOut, hqi, hki, hvi]

lemma agreeTo_layerRow {n : ℕ} (P : Prim) (g : ℚ → ℚ) (eps : ℚ) (h : ℕ) (lp : LayerParams)
    {x y : Seq} (hxy : AgreeTo n x y) :
    AgreeTo n (layerRow P g eps h lp x) (layerRow P g eps h lp y) := by
  have ha : AgreeTo n
      (addRow x (selfAttnRow P h lp.attn (x.map (layerNormVec P eps lp.ln1w lp.ln1b))))
      (addRow y (selfAttnRow P h lp.attn (y.map (layerNormVec P eps lp.ln1w lp.ln1b)))) :=
    agreeTo_zipWith addVec hxy
      (agreeTo_selfAttnRow P h lp.attn (agreeTo_map _ hxy))
  exact agreeTo_zipWith addVec ha (agreeTo_map _ (agreeTo_map _ ha))

lemma agreeTo_foldl_layerRow {n : ℕ} (P : Prim) (g : ℚ → ℚ) (eps : ℚ) (h : ℕ)
    (lps : List LayerParams) :
    ∀ {x y : Seq}, AgreeTo n x y →
      AgreeTo n (lps.foldl (fun x lp => layerRow P g eps h lp x) x)
        (lps.foldl (fun x lp => layerRow P g eps h lp x) y) := by
  induction lps with
  | nil => intro x y hxy; exact hxy
  | cons lp rest ih => intro x y hxy; exact ih (agreeTo_layerRow P g eps h lp hxy)

/-- Causality of the whole post-tokenizer pipeline at the row level. -/
lemma agreeTo_coreRow {n : ℕ} (P : Prim) (g : ℚ → ℚ) (cfg : Config) (p : EncoderParams)
    {l1 l2 : List ℕ} (hxy : AgreeTo n l1 l2) :
    AgreeTo n (coreRow P g cfg p l1) (coreRow P g cfg p l2) := by
  have hpos : embedRow p.posTable (get_position_ids cfg.max_sequence_length l1.length)
      = embedRow p.posTable (get_position_ids cfg.max_sequence_length l2.length) := by
    rw [hxy.1]
  have hx0 : AgreeTo n
      (addRow (embedRow p.tokTable l1)
        (embedRow p.posTable (get_position_ids cfg.max_sequence_length l1.length)))
      (addRow (embedRow p.tokTable l2)
        (embedRow p.posTable (get_position_ids cfg.max_sequence_length l2.length))) := by
    rw [hpos]
    exact agreeTo_zipWith addVec (agreeTo_map _ hxy) ⟨rfl, rfl⟩
  exact agreeTo_map _
    (agreeTo_foldl_layerRow P g cfg.layer_norm_eps cfg.num_attention_heads _ hx0)

lemma countGelu_replaceGelu (m : Module) : countGelu (replaceGelu m) = 0 := by
  induction m <;> simp [replaceGelu, countGelu, *]

lemma countApproxGelu_replaceGelu (m : Module) :
    countApproxGelu (replaceGelu m) = countApproxGelu m + countGelu m := by
  induction m <;> simp [replaceGelu, countGelu, countApproxGelu, *] <;> omega

lemma eraseAct_replaceGelu (m : Module) : eraseAct (replaceGelu m) = eraseAct m := by
  induction m <;> simp [replaceGelu, eraseAct, *]

lemma nonActLeaves_chainM (a b : Module) :
    nonActLeaves (.chainM a b) = nonActLeaves a ++ nonActLeaves b := by
  simp [nonActLeaves, leaves, List.filter_append]

lemma nonActLeaves_residualM (a b : Module) :
    nonActLeaves (.residualM a b) = nonActLeaves a ++ nonActLeaves b := by
  simp [nonActLeaves, leaves, List.filter_append]

lemma nonActLeaves_sumM (a b : Module) :
    nonActLeaves (.sumM a b) = nonActLeaves a ++ nonActLeaves b := by
  simp [nonActLeaves, leaves, List.filter_append]

lemma nonActLeaves_replaceGelu (m : Module) : nonActLeaves (replaceGelu m) = nonActLeaves m := by
  induction m with
  | chainM a b iha ihb => rw [replaceGelu, nonActLeaves_chainM, nonActLeaves_chainM, iha, ihb]
  | residualM a b iha ihb =>
    rw [replaceGelu, nonActLeaves_residualM, nonActLeaves_residualM, iha, ihb]
  | sumM a b iha ihb => rw [replaceGelu, nonActLeaves_sumM, nonActLeaves_sumM, iha, ihb]
  | geluM => rfl
  | approximateGeluM => rfl
  | tokenizerM t => rfl
  | converterM => rfl
  | embeddingM t => rfl
  | lambdaPosIds n => rfl
  | linearM W b => rfl
  | layerNormM e w b => rfl
  | selfAttentionM h pa => rfl

lemma countGelu_chainAll (L : List Module) :
    countGelu (chainAll L) = (L.map countGelu).sum := by
  induction L with
  | nil => rfl
  | cons m ms ih =>
    cases ms with
    | nil => simp [chainAll, countGelu]
    | cons a l =>
      simp only [chainAll, countGelu, List.map_cons, List.sum_cons] at ih ⊢
      rw [ih]

lemma countGelu_transformerLayer_gelu (eps : ℚ) (h : ℕ) (lp : LayerParams) :
    countGelu (TransformerLayer.buildWith .geluM eps h lp) = 1 := by
  simp [TransformerLayer.buildWith, FeedForward.buildWith, countGelu]

lemma countGelu_buildBase (cfg : Config) (p : EncoderParams) :
    countGelu (CLIPTextEncoder.buildBase cfg p) = cfg.num_layers := by
  show countGelu (.tokenizerM _) + countGelu (CLIPTextEncoder.coreWith .geluM cfg p)
    = cfg.num_layers
  rw [CLIPTextEncoder.coreWith, countGelu_chainAll]
  simp [countGelu, PositionalEncoder.build, List.map_map, Function.comp_def,
    countGelu_transformerLayer_gelu, List.map_const']

lemma transformerLayer_construct_ok {dq h : ℕ} (hd : dq % h = 0) (eps : ℚ) (lp : LayerParams) :
    TransformerLayer.construct eps dq h lp = some (TransformerLayer.build eps h lp) := by
  simp [TransformerLayer.construct, SelfAttention.construct, hd, TransformerLayer.build,
    TransformerLayer.buildWith, FeedForward.build]

lemma mapM_transformerLayer_ok {dq h : ℕ} (hd : dq % h = 0) (eps : ℚ)
    (p : EncoderParams) (idxs : List ℕ) :
    (idxs.mapM (fun i => TransformerLayer.construct eps dq h (p.layers i)))
      = some (idxs.map (fun i => TransformerLayer.build eps h (p.layers i))) := by
  induction idxs with
  | nil => rfl
  | cons i rest ih =>
    rw [List.mapM_cons, transformerLayer_construct_ok hd, ih]
    rfl

lemma construct_eq_make (cfg : Config) (p : EncoderParams)
    (hd : cfg.embedding_dim % cfg.num_attention_heads = 0) :
    CLIPTextEncoder.construct cfg p = some (CLIPTextEncoder.make cfg p) := by
  rw [CLIPTextEncoder.construct]
  rw [mapM_transformerLayer_ok hd]
  show some _ = _
  rw [CLIPTextEncoder.make, CLIPTextEncoder.buildBase, CLIPTextEncoder.coreWith]
  rcases cfg.use_quick_gelu with _ | _ <;> rfl

lemma construct_fails (cfg : Config) (p : EncoderParams)
    (hd : ¬ cfg.embedding_dim % cfg.num_attention_heads = 0)
    (hpos : 0 < cfg.num_layers) :
    CLIPTextEncoder.construct cfg p = none := by
  obtain ⟨k, hk⟩ : ∃ k, cfg.num_layers = k + 1 :=
    ⟨cfg.num_layers - 1, by omega⟩
  rw [CLIPTextEncoder.construct, hk, List.range_succ_eq_map, List.mapM_cons]
  simp [TransformerLayer.construct, SelfAttention.construct, hd]

lemma embedRow_range_take {table : List Vec} {L : ℕ} (h : L ≤ table.length) :
    embedRow table (List.range L) = table.take L := by
  apply List.ext_getElem
  · simp [embedRow, Nat.min_eq_left h]
  · intro i h1 h2
    have hiL : i < L := by simpa [embedRow] using h1
    have hit : i < table.length := lt_of_lt_of_le hiL h
    simp [embedRow, List.getElem_take, List.getD_eq_getElem?_getD,
      List.getElem?_eq_getElem hit]

lemma run_positionalEncoder_ids (P : Prim) (table : List Vec) (maxSeq : ℕ) (l : List ℕ) :
    run P (PositionalEncoder.build maxSeq table) (.ids [l])
      = .seq [embedRow table (get_position_ids maxSeq l.length)] := rfl

/-- C1: a `TransformerLayer` computes exactly two residual sub-blocks in
sequence with pre-norm placement: first `x := x + SelfAttention(LayerNorm(x))`
with causal multi-head attention (`selfAttnRow` attends each position only
to positions `≤ i`), then `x := x + FeedForward(LayerNorm(x))`; each
LayerNorm is applied before its sublayer and not after the residual sum. -/
theorem transformerLayer_prenorm_residual (P : Prim) (eps : ℚ) (h : ℕ) (lp : LayerParams)
    (b : List Seq) :
    run P (TransformerLayer.build eps h lp) (.seq b)
      = .seq (b.map (fun x =>
          let y := addRow x
            (selfAttnRow P h lp.attn (x.map (layerNormVec P eps lp.ln1w lp.ln1b)))
          addRow y
            ((y.map (layerNormVec P eps lp.ln2w lp.ln2b)).map (ffVec P.geluExact lp.ff)))) :=
  run_transformerLayer P (actLike_gelu P) eps h lp b

/-- C2: two token-id inputs to the encoder's post-tokenizer pipeline that
agree on all positions up to and including `i` (and have the same length)
produce outputs that agree up to and including position `i`: no future
leakage through the stacked causal self-attention layers.  The final
clause ties the pipeline to the constructed encoder. -/
theorem encoder_causal_no_future_leakage (P : Prim) (cfg : Config) (p : EncoderParams)
    (i : ℕ) (l1 l2 : List ℕ) (hlen : l1.length = l2.length)
    (htake : l1.take (i + 1) = l2.take (i + 1)) :
    ∃ o1 o2,
      run P (CLIPTextEncoder.coreWith (actModOf cfg.use_quick_gelu) cfg p) (.ids [l1])
        = .seq [o1]
      ∧ run P (CLIPTextEncoder.coreWith (actModOf cfg.use_quick_gelu) cfg p) (.ids [l2])
        = .seq [o2]
      ∧ o1.take (i + 1) = o2.take (i + 1)
      ∧ o1.getD i [] = o2.getD i []
      ∧ CLIPTextEncoder.make cfg p
          = .chainM (.tokenizerM (encoderTokenizer cfg))
              (CLIPTextEncoder.coreWith (actModOf cfg.use_quick_gelu) cfg p) := by
  refine ⟨coreRow P (actOf P cfg.use_quick_gelu) cfg p l1,
    coreRow P (actOf P cfg.use_quick_gelu) cfg p l2,
    run_coreWith P (actLike_actModOf P cfg.use_quick_gelu) cfg p l1,
    run_coreWith P (actLike_actModOf P cfg.use_quick_gelu) cfg p l2, ?_, ?_,
    make_eq_chain cfg p⟩
  · exact (agreeTo_coreRow P _ cfg p ⟨hlen, htake⟩).2
  · exact getD_eq_of_take_eq (Nat.lt_succ_self i)
      (agreeTo_coreRow P _ cfg p ⟨hlen, htake⟩).2 []

/-- C2 witness: a concrete one-layer encoder and the inputs `[0, 1]` and
`[0, 2]`, differing only at position 1, agree at position 0. -/
theorem encoder_causal_no_future_leakage_witness :
    ([0, 1] : List ℕ).length = ([0, 2] : List ℕ).length
    ∧ ([0, 1] : List ℕ).take 1 = ([0, 2] : List ℕ).take 1
    ∧ ∃ o1 o2,
        run exP (CLIPTextEncoder.coreWith (actModOf exCfg.use_quick_gelu) exCfg exParams)
          (.ids [[0, 1]]) = .seq [o1]
        ∧ run exP (CLIPTextEncoder.coreWith (actModOf exCfg.use_quick_gelu) exCfg exParams)
          (.ids [[0, 2]]) = .seq [o2]
        ∧ o1.take 1 = o2.take 1
        ∧ o1.getD 0 [] = o2.getD 0 []
        ∧ CLIPTextEncoder.make exCfg exParams
            = .chainM (.tokenizerM (encoderTokenizer exCfg))
                (CLIPTextEncoder.coreWith (actModOf exCfg.use_quick_gelu) exCfg exParams) :=
  ⟨by decide, by decide,
    encoder_causal_no_future_leakage exP exCfg exParams 0 [0, 1] [0, 2]
      (by decide) (by decide)⟩

/-- C3: with `use_quick_gelu` set, the post-construction rewrite pass
replaces every exact-GeLU instance (one per layer) by an approximate-GeLU
instance and changes nothing else: the two constructions are equal after
erasing the activation distinction, their non-activation leaf modules
(with all their parameters) are equal lists, and hence every
non-activation module computes bit-identical outputs on identical
inputs. -/
theorem quick_gelu_rewrite_frame (cfg : Config) (p : EncoderParams) :
    countGelu (CLIPTextEncoder.make { cfg with use_quick_gelu := false } p) = cfg.num_layers
    ∧ countGelu (CLIPTextEncoder.make { cfg with use_quick_gelu := true } p) = 0
    ∧ countApproxGelu (CLIPTextEncoder.make { cfg with use_quick_gelu := true } p)
        = countApproxGelu (CLIPTextEncoder.make { cfg with use_quick_gelu := false } p)
          + countGelu (CLIPTextEncoder.make { cfg with use_quick_gelu := false } p)
    ∧ eraseAct (CLIPTextEncoder.make { cfg with use_quick_gelu := true } p)
        = eraseAct (CLIPTextEncoder.make { cfg with use_quick_gelu := false } p)
    ∧ nonActLeaves (CLIPTextEncoder.make { cfg with use_quick_gelu := true } p)
        = nonActLeaves (CLIPTextEncoder.make { cfg with use_quick_gelu := false } p)
    ∧ ∀ (i : ℕ) (P : Prim) (v : Val),
        run P ((nonActLeaves
          (CLIPTextEncoder.make { cfg with use_quick_gelu := true } p)).getD i .converterM) v
        = run P ((nonActLeaves
          (CLIPTextEncoder.make { cfg with use_quick_gelu := false } p)).getD i .converterM) v := by
  have hT : CLIPTextEncoder.make { cfg with use_quick_gelu := true } p
      = replaceGelu (CLIPTextEncoder.buildBase { cfg with use_quick_gelu := false } p) := rfl
  have hF : CLIPTextEncoder.make { cfg with use_quick_gelu := false } p
      = CLIPTextEncoder.buildBase { cfg with use_quick_gelu := false } p := rfl
  refine ⟨?_, ?_, ?_, ?_, ?_, ?_⟩
  · rw [hF, countGelu_buildBase]
  · rw [hT]; exact countGelu_replaceGelu _
  · rw [hT, hF]; exact countApproxGelu_replaceGelu _
  · rw [hT, hF]; exact eraseAct_replaceGelu _
  · rw [hT, hF]; exact nonActLeaves_replaceGelu _
  · intro i P v
    rw [hT, hF, nonActLeaves_replaceGelu]

/-- C4 counterexample: the claim that exactly two presets configure a
tokenizer with a non-default pad-token id is false on the code — only
`CLIPTextEncoderG` passes a tokenizer at all; `CLIPTextEncoderL` passes
none. -/
theorem presets_pad_counterexample :
    presetConfigs.countP Config.configuresNonDefaultPad ≠ 2
    ∧ Config.configuresNonDefaultPad CLIPTextEncoderL.config = false := by
  decide

/-- C4 amended: the three presets fix 768-dim/12-layer/12-head with
approximate GeLU and no tokenizer argument (default pad-token
convention), 1024-dim/23-layer/16-head with exact GeLU, and
1280-dim/32-layer/20-head with exact GeLU and tokenizer pad-token id 0 —
so exactly one preset configures a tokenizer with a non-default pad-token
id. -/
theorem presets_hyperparameters :
    CLIPTextEncoderL.config.embedding_dim = 768
    ∧ CLIPTextEncoderL.config.num_layers = 12
    ∧ CLIPTextEncoderL.config.num_attention_heads = 12
    ∧ CLIPTextEncoderL.config.use_quick_gelu = true
    ∧ CLIPTextEncoderL.config.tokenizer = none
    ∧ CLIPTextEncoderH.config.embedding_dim = 1024
    ∧ CLIPTextEncoderH.config.num_layers = 23
    ∧ CLIPTextEncoderH.config.num_attention_heads = 16
    ∧ CLIPTextEncoderH.config.use_quick_gelu = false
    ∧ CLIPTextEncoderH.config.tokenizer = none
    ∧ CLIPTextEncoderG.config.embedding_dim = 1280
    ∧ CLIPTextEncoderG.config.num_layers = 32
    ∧ CLIPTextEncoderG.config.num_attention_heads = 20
    ∧ CLIPTextEncoderG.config.use_quick_gelu = false
    ∧ CLIPTextEncoderG.config.tokenizer
        = some { sequence_length := none, pad_token_id := some 0 }
    ∧ presetConfigs.countP Config.configuresNonDefaultPad = 1 := by
  decide

/-- C5: for every input row of length `L ≤ max_sequence_length`, the
`PositionalEncoder` outputs exactly the first `L` rows of its embedding
table, and the output depends only on the input's length, never on its
values. -/
theorem positionalEncoder_first_rows (P : Prim) (table : List Vec) (maxSeq : ℕ)
    (l : List ℕ) (hlen : l.length ≤ maxSeq) (htab : table.length = maxSeq) :
    run P (PositionalEncoder.build maxSeq table) (.ids [l]) = .seq [table.take l.length]
    ∧ ∀ l2 : List ℕ, l2.length = l.length →
        run P (PositionalEncoder.build maxSeq table) (.ids [l2])
          = run P (PositionalEncoder.build maxSeq table) (.ids [l]) := by
  have hgpi : get_position_ids maxSeq l.length = List.range l.length := by
    rw [get_position_ids, position_ids, List.take_range, Nat.min_eq_left hlen]
  constructor
  · rw [run_positionalEncoder_ids, hgpi,
      embedRow_range_take (le_of_le_of_eq hlen htab.symm)]
  · intro l2 h2
    rw [run_positionalEncoder_ids, run_positionalEncoder_ids, h2]

/-- C5 witness: a concrete table of three rows and an input of length 2. -/
theorem positionalEncoder_first_rows_witness :
    ([7, 9] : List ℕ).length ≤ 3 ∧ ([[1], [2], [3]] : List Vec).length = 3
    ∧ (run exP (PositionalEncoder.build 3 [[1], [2], [3]]) (.ids [[7, 9]])
        = .seq [([[1], [2], [3]] : List Vec).take ([7, 9] : List ℕ).length]
      ∧ ∀ l2 : List ℕ, l2.length = ([7, 9] : List ℕ).length →
          run exP (PositionalEncoder.build 3 [[1], [2], [3]]) (.ids [l2])
            = run exP (PositionalEncoder.build 3 [[1], [2], [3]]) (.ids [[7, 9]])) :=
  ⟨by decide, by decide,
    positionalEncoder_first_rows exP [[1], [2], [3]] 3 [7, 9] (by decide) (by decide)⟩

/-- C6: a configuration whose `embedding_dim` is not divisible by
`num_attention_heads` is rejected when the encoder is constructed (for any
encoder with at least one layer): construction fails, and succeeds exactly
on the divisible configurations, in which case it yields the constructed
encoder. -/
theorem encoder_construction_validates (cfg : Config) (p : EncoderParams)
    (hpos : 0 < cfg.num_layers) :
    ((CLIPTextEncoder.construct cfg p).isSome
        ↔ cfg.embedding_dim % cfg.num_attention_heads = 0)
    ∧ (cfg.embedding_dim % cfg.num_attention_heads = 0
        → CLIPTextEncoder.construct cfg p = some (CLIPTextEncoder.make cfg p)) := by
  constructor
  · constructor
    · intro hs
      by_contra hd
      rw [construct_fails cfg p hd hpos] at hs
      simp at hs
    · intro hd
      rw [construct_eq_make cfg p hd]
      rfl
  · exact construct_eq_make cfg p

/-- C6 witness: dimension 3 with 2 heads is rejected at construction
time. -/
theorem encoder_construction_validates_witness :
    0 < exCfgBad.num_layers
    ∧ (((CLIPTextEncoder.construct exCfgBad exParams).isSome
        ↔ exCfgBad.embedding_dim % exCfgBad.num_attention_heads = 0)
      ∧ (exCfgBad.embedding_dim % exCfgBad.num_attention_heads = 0
        → CLIPTextEncoder.construct exCfgBad exParams
            = some (CLIPTextEncoder.make exCfgBad exParams))) :=
  ⟨by decide, encoder_construction_validates exCfgBad exParams (by decide)⟩

/-- C7: for every valid configuration (tokenizer padding to
`max_sequence_length`, well-formed parameters, in-vocabulary padding of
the empty string), running the constructed encoder on the empty string
yields a tensor of shape `(1, max_sequence_length, embedding_dim)`, and
`unconditional_text_embedding` is exactly the encoder's output on the
empty string. -/
theorem encoder_empty_string_shape (P : Prim) (cfg : Config) (p : EncoderParams)
    (htok : (encoderTokenizer cfg).effSeqLen P = cfg.max_sequence_length)
    (hwf : EncoderParams.WF cfg p)
    (hids : ∀ id ∈ tokenizerEncode P (encoderTokenizer cfg) "", id < cfg.vocabulary_size) :
    (∃ out, run P (CLIPTextEncoder.make cfg p) (.str "") = .seq out
      ∧ BatchShape 1 cfg.max_sequence_length cfg.embedding_dim out)
    ∧ CLIPTextEncoder.unconditional_text_embedding P cfg p
        = run P (CLIPTextEncoder.make cfg p) (.str "") := by
  refine ⟨⟨[coreRow P (actOf P cfg.use_quick_gelu) cfg p
      (tokenizerEncode P (encoderTokenizer cfg) "")],
    run_make_str P cfg p "", rfl, ?_⟩, rfl⟩
  intro r hr
  rw [List.mem_singleton] at hr
  subst hr
  exact coreRow_shape P _ cfg p hwf
    (by rw [tokenizerEncode_length, htok]) hids

/-- C7 witness: the concrete one-layer encoder on the empty string. -/
theorem encoder_empty_string_shape_witness :
    (encoderTokenizer exCfg).effSeqLen exP = exCfg.max_sequence_length
    ∧ EncoderParams.WF exCfg exParams
    ∧ (∀ id ∈ tokenizerEncode exP (encoderTokenizer exCfg) "", id < exCfg.vocabulary_size)
    ∧ ((∃ out, run exP (CLIPTextEncoder.make exCfg exParams) (.str "") = .seq out
        ∧ BatchShape 1 exCfg.max_sequence_length exCfg.embedding_dim out)
      ∧ CLIPTextEncoder.unconditional_text_embedding exP exCfg exParams
          = run exP (CLIPTextEncoder.make exCfg exParams) (.str "")) :=
  ⟨by decide, by decide, by decide,
    encoder_empty_string_shape exP exCfg exParams (by decide) (by decide) (by decide)⟩

/-- C8: every `TransformerLayer` in the stack of the constructed encoder,
and its final `LayerNorm`, consumes and produces hidden-state tensors of
identical shape `(B, L, embedding_dim)`; the last clause ties these
modules to the constructed encoder. -/
theorem encoder_shape_preservation (P : Prim) (cfg : Config) (p : EncoderParams) (B L : ℕ)
    (hwf : ∀ i < cfg.num_layers,
      LayerParams.WF cfg.embedding_dim cfg.feedforward_dim (p.layers i))
    (hlnw : p.lnfW.length = cfg.embedding_dim) (hlnb : p.lnfB.length = cfg.embedding_dim)
    (hdiv : cfg.num_attention_heads ∣ cfg.embedding_dim) :
    (∀ i < cfg.num_layers, ∀ b : List Seq, BatchShape B L cfg.embedding_dim b →
      ∃ out, run P (TransformerLayer.buildWith (actModOf cfg.use_quick_gelu)
          cfg.layer_norm_eps cfg.num_attention_heads (p.layers i)) (.seq b) = .seq out
        ∧ BatchShape B L cfg.embedding_dim out)
    ∧ (∀ b : List Seq, BatchShape B L cfg.embedding_dim b →
      ∃ out, run P (.layerNormM cfg.layer_norm_eps p.lnfW p.lnfB) (.seq b) = .seq out
        ∧ BatchShape B L cfg.embedding_dim out)
    ∧ CLIPTextEncoder.make cfg p
        = .chainM (.tokenizerM (encoderTokenizer cfg))
            (CLIPTextEncoder.coreWith (actModOf cfg.use_quick_gelu) cfg p) := by
  refine ⟨?_, ?_, make_eq_chain cfg p⟩
  · intro i hi b hb
    refine ⟨b.map (layerRow P (actOf P cfg.use_quick_gelu) cfg.layer_norm_eps
        cfg.num_attention_heads (p.layers i)),
      run_transformerLayer P (actLike_actModOf P cfg.use_quick_gelu) _ _ _ b,
      by simp [hb.1], ?_⟩
    intro r hr
    obtain ⟨q, hq, rfl⟩ := List.mem_map.1 hr
    exact layerRow_shape P _ _ _ (hwf i hi) (hb.2 q hq)
  · intro b hb
    refine ⟨b.map (List.map (layerNormVec P cfg.layer_norm_eps p.lnfW p.lnfB)),
      rfl, by simp [hb.1], ?_⟩
    intro r hr
    obtain ⟨q, hq, rfl⟩ := List.mem_map.1 hr
    exact layerNorm_rowShape P _ hlnw hlnb (hb.2 q hq)

/-- C8 witness: the concrete one-layer encoder on a batch of shape
`(1, 2, 1)`. -/
theorem encoder_shape_preservation_witness :
    (∀ i < exCfg.num_layers,
      LayerParams.WF exCfg.embedding_dim exCfg.feedforward_dim (exParams.layers i))
    ∧ exParams.lnfW.length = exCfg.embedding_dim
    ∧ exParams.lnfB.length = exCfg.embedding_dim
    ∧ exCfg.num_attention_heads ∣ exCfg.embedding_dim
    ∧ ((∀ i < exCfg.num_layers, ∀ b : List Seq, BatchShape 1 2 exCfg.embedding_dim b →
        ∃ out, run exP (TransformerLayer.buildWith (actModOf exCfg.use_quick_gelu)
            exCfg.layer_norm_eps exCfg.num_attention_heads (exParams.layers i)) (.seq b)
              = .seq out
          ∧ BatchShape 1 2 exCfg.embedding_dim out)
      ∧ (∀ b : List Seq, BatchShape 1 2 exCfg.embedding_dim b →
        ∃ out, run exP (.layerNormM exCfg.layer_norm_eps exParams.lnfW exParams.lnfB)
            (.seq b) = .seq out
          ∧ BatchShape 1 2 exCfg.embedding_dim out)
      ∧ CLIPTextEncoder.make exCfg exParams
          = .chainM (.tokenizerM (encoderTokenizer exCfg))
              (CLIPTextEncoder.coreWith (actModOf exCfg.use_quick_gelu) exCfg exParams)) :=
  ⟨by decide, by decide, by decide, by decide,
    encoder_shape_preservation exP exCfg exParams 1 2 (by decide) (by decide) (by decide)
      (by decide)⟩

/-- C9 counterexample: the claim that the slice of position ids is empty
when the input length exceeds `max_sequence_length` is false — with
`max_sequence_length = 2` and input length 3 the slice is `[0, 1]`, not
empty (Python slicing clamps). -/
theorem positional_overflow_counterexample :
    get_position_ids 2 3 = [0, 1] ∧ get_position_ids 2 3 ≠ [] := by
  decide

/-- C9 amended: for input length `L > max_sequence_length` the slice is
clamped to the whole `max_sequence_length`-long position-id sequence (not
empty), the `PositionalEncoder` returns the full table without any
rejection, and its output length differs from `L` — a silent length
mismatch surfacing downstream. -/
theorem positional_overflow_clamped (P : Prim) (table : List Vec) (maxSeq : ℕ)
    (l : List ℕ) (hover : maxSeq < l.length) (htab : table.length = maxSeq) :
    get_position_ids maxSeq l.length = position_ids maxSeq
    ∧ (get_position_ids maxSeq l.length).length = maxSeq
    ∧ run P (PositionalEncoder.build maxSeq table) (.ids [l]) = .seq [table]
    ∧ maxSeq ≠ l.length := by
  have h1 : get_position_ids maxSeq l.length = position_ids maxSeq := by
    rw [get_position_ids, position_ids, List.take_range,
      Nat.min_eq_right (le_of_lt hover)]
  refine ⟨h1, by rw [h1, position_ids, List.length_range], ?_, by omega⟩
  rw [run_positionalEncoder_ids, h1, position_ids, ← htab, embedRow_range_take le_rfl,
    List.take_length]

/-- C9 witness: `max_sequence_length = 2`, table of two rows, input of
length 3. -/
theorem positional_overflow_clamped_witness :
    2 < ([5, 6, 7] : List ℕ).length ∧ ([[1], [2]] : List Vec).length = 2
    ∧ (get_position_ids 2 ([5, 6, 7] : List ℕ).length = position_ids 2
      ∧ (get_position_ids 2 ([5, 6, 7] : List ℕ).length).length = 2
      ∧ run exP (PositionalEncoder.build 2 [[1], [2]]) (.ids [[5, 6, 7]])
          = .seq [[[1], [2]]]
      ∧ 2 ≠ ([5, 6, 7] : List ℕ).length) :=
  ⟨by decide, by decide,
    positional_overflow_clamped exP [[1], [2]] 2 [5, 6, 7] (by decide) (by decide)⟩

/-- C10: constructing `CLIPTextEncoder` with no explicit arguments uses
embedding_dim 768, max_sequence_length 77, vocabulary_size 49408,
num_layers 12, num_attention_heads 12, feedforward_dim 3072,
layer_norm_eps 1e-5, exact GeLU, and an internally constructed tokenizer
with sequence length equal to `max_sequence_length`; the built encoder
keeps its 12 exact-GeLU activations. -/
theorem default_configuration (p : EncoderParams) :
    CLIPTextEncoder.defaultConfig.embedding_dim = 768
    ∧ CLIPTextEncoder.defaultConfig.max_sequence_length = 77
    ∧ CLIPTextEncoder.defaultConfig.vocabulary_size = 49408
    ∧ CLIPTextEncoder.defaultConfig.num_layers = 12
    ∧ CLIPTextEncoder.defaultConfig.num_attention_heads = 12
    ∧ CLIPTextEncoder.defaultConfig.feedforward_dim = 3072
    ∧ CLIPTextEncoder.defaultConfig.layer_norm_eps = 1 / 100000
    ∧ CLIPTextEncoder.defaultConfig.use_quick_gelu = false
    ∧ encoderTokenizer CLIPTextEncoder.defaultConfig
        = { sequence_length := some CLIPTextEncoder.defaultConfig.max_sequence_length
            pad_token_id := none }
    ∧ countGelu (CLIPTextEncoder.make CLIPTextEncoder.defaultConfig p)
        = CLIPTextEncoder.defaultConfig.num_layers := by
  refine ⟨rfl, rfl, rfl, rfl, rfl, rfl, rfl, rfl, rfl, ?_⟩
  have hmk : CLIPTextEncoder.make CLIPTextEncoder.defaultConfig p
      = CLIPTextEncoder.buildBase CLIPTextEncoder.defaultConfig p := rfl
  rw [hmk, countGelu_buildBase]

end Refiners
